import Mathlib

/-!
Verification of the core algorithmic components of the rust-quake renderer:
the guillotine texture-atlas packer (`src/render/atlas.rs`), the chunk-based
GPU range allocator (`src/render/alloc.rs`), and the level baker
(`src/render/qmap.rs`).  Rust `u64`/`usize` quantities are modelled on `Nat`
(the sizes handled here — a 64 MiB region, 8 KiB chunks, 1024² atlases — stay
far below `2^64`), `i32` quantities on `Int`, and the baker's `f32`
arithmetic on `ℚ` (exact at the integer-valued inputs evaluated below).
-/

/-! ## TextureAtlas (src/render/atlas.rs) -/

structure Rect where
  x : Int
  y : Int
  width : Int
  height : Int
deriving DecidableEq, Repr, Inhabited

structure TextureAtlas where
  free_rects : List Rect
  padding : Int
deriving DecidableEq, Repr

def TextureAtlas.new (width height : Int) : TextureAtlas :=
  { free_rects := [{ x := 0, y := 0, width := width, height := height }], padding := 0 }

def TextureAtlas.new_padded (width height padding : Int) : TextureAtlas :=
  { free_rects := [{ x := 0, y := 0, width := width, height := height }], padding := padding }

/-- The best-fit scan in `TextureAtlas::find`: walks the free list keeping the
lowest-score candidate `(score, index)`, breaking early on a perfect match. -/
def findBest (w h : Int) : List Rect → Nat → Option (Int × Nat) → Option (Int × Nat)
  | [], _, best => best
  | free :: rest, idx, best =>
    let score := (free.width - w) * (free.height - h)
    if decide (0 ≤ score) && decide (w ≤ free.width) && decide (h ≤ free.height) &&
        (match best with | none => true | some v => decide (score < v.1)) then
      if score = 0 then some (score, idx)
      else findBest w h rest (idx + 1) (some (score, idx))
    else findBest w h rest (idx + 1) best

/-- `TextureAtlas::find`: inflate the request by `2 * padding`, pick the best
free rectangle, guillotine-split the leftover into a right strip and a bottom
strip, and return the placed rectangle deflated by `padding`.  Returns the
result together with the updated atlas (the Rust method mutates `self`). -/
def TextureAtlas.find (a : TextureAtlas) (width height : Int) : Option Rect × TextureAtlas :=
  let w := width + a.padding * 2
  let h := height + a.padding * 2
  match findBest w h a.free_rects 0 none with
  | none => (none, a)
  | some best =>
    let rect := a.free_rects.getD best.2 default
    let rest := a.free_rects.eraseIdx best.2
    let rest := if 0 < rect.width - w then
        rest ++ [{ x := rect.x + w, y := rect.y, width := rect.width - w, height := rect.height }]
      else rest
    let rectW := if 0 < rect.width - w then w else rect.width
    let rest := if 0 < rect.height - h then
        rest ++ [{ x := rect.x, y := rect.y + h, width := rectW, height := rect.height - h }]
      else rest
    (some { x := rect.x + a.padding, y := rect.y + a.padding,
            width := w - a.padding * 2, height := h - a.padding * 2 },
     { free_rects := rest, padding := a.padding })

/-- Run a sequence of `find` requests, returning the final atlas and the list
of successfully returned rectangles (in call order). -/
def runFinds : TextureAtlas → List (Int × Int) → TextureAtlas × List Rect
  | a, [] => (a, [])
  | a, r :: rest =>
    match TextureAtlas.find a r.1 r.2 with
    | (none, a') => runFinds a' rest
    | (some rect, a') =>
      let out := runFinds a' rest
      (out.1, rect :: out.2)

/-- A point of the integer pixel grid lies inside a rectangle. -/
def Rect.Contains (r : Rect) (px py : Int) : Prop :=
  r.x ≤ px ∧ px < r.x + r.width ∧ r.y ≤ py ∧ py < r.y + r.height

/-- Two rectangles are disjoint as sets of pixels. -/
def Rect.Disjoint (r s : Rect) : Prop :=
  ∀ px py : Int, ¬(r.Contains px py ∧ s.Contains px py)

/-- A rectangle lies inside the atlas bounds `[0,W) × [0,H)` (as a pixel set). -/
def Rect.InBounds (r : Rect) (W H : Int) : Prop :=
  ∀ px py : Int, r.Contains px py → 0 ≤ px ∧ px < W ∧ 0 ≤ py ∧ py < H

/-- Re-inflate a returned rectangle by the atlas padding on all sides
(the inverse of the deflation `find` applies before returning). -/
def Rect.inflate (r : Rect) (p : Int) : Rect :=
  { x := r.x - p, y := r.y - p, width := r.width + p * 2, height := r.height + p * 2 }

/-! ### Lemmas about the best-fit scan -/

theorem findBest_some_lt (w h : Int) : ∀ (l : List Rect) (idx : Nat) (best : Option (Int × Nat))
    (v : Int × Nat), (∀ b, best = some b → b.2 < idx) → findBest w h l idx best = some v →
    v.2 < idx + l.length := by
  intro l
  induction l with
  | nil =>
    intro idx best v hb hfb
    simp only [findBest] at hfb
    have hv := hb v hfb
    omega
  | cons free rest ih =>
    intro idx best v hb hfb
    simp only [findBest] at hfb
    split at hfb
    · split at hfb
      · cases hfb
        simp only [List.length_cons]
        omega
      · have := ih (idx + 1) (some (_, idx)) v (by intro b hb2; cases hb2; simp) hfb
        simp only [List.length_cons]
        omega
    · have := ih (idx + 1) best v (by intro b hb2; have := hb b hb2; omega) hfb
      simp only [List.length_cons]
      omega

theorem findBest_some_fit (w h : Int) : ∀ (l : List Rect) (idx : Nat) (best : Option (Int × Nat))
    (v : Int × Nat), findBest w h l idx best = some v →
    best = some v ∨ ∃ j, ∃ hj : j < l.length, v.2 = idx + j ∧ w ≤ l[j].width ∧ h ≤ l[j].height := by
  intro l
  induction l with
  | nil =>
    intro idx best v hfb
    simp only [findBest] at hfb
    exact Or.inl hfb
  | cons free rest ih =>
    intro idx best v hfb
    simp only [findBest] at hfb
    split at hfb
    next hcond =>
      simp only [Bool.and_eq_true, decide_eq_true_eq] at hcond
      split at hfb
      · cases hfb
        exact Or.inr ⟨0, by simp, by simp, hcond.1.1.2, hcond.1.2⟩
      · rcases ih (idx + 1) (some (_, idx)) v hfb with heq | ⟨j, hj, hv, hfit⟩
        · cases heq
          exact Or.inr ⟨0, by simp, by simp, hcond.1.1.2, hcond.1.2⟩
        · exact Or.inr ⟨j + 1, by simpa using Nat.succ_lt_succ hj, by omega, by simpa using hfit⟩
    · rcases ih (idx + 1) best v hfb with heq | ⟨j, hj, hv, hfit⟩
      · exact Or.inl heq
      · exact Or.inr ⟨j + 1, by simpa using Nat.succ_lt_succ hj, by omega, by simpa using hfit⟩

/-! ### C10: a failed find leaves the atlas unchanged -/

/-- C10: when `TextureAtlas::find` returns `None` (no free rectangle fits the
padding-inflated request), the free-rectangle list — the whole atlas state —
is exactly what it was before the call. -/
theorem find_none_state_unchanged (a : TextureAtlas) (w h : Int)
    (hnone : (a.find w h).1 = none) : (a.find w h).2 = a := by
  unfold TextureAtlas.find at *
  cases hfb : findBest (w + a.padding * 2) (h + a.padding * 2) a.free_rects 0 none with
  | none => simp only [hfb]
  | some best => simp [hfb] at hnone

/-- C10 witness: on a fresh 16×16 atlas, `find 17 17` fails and the state is
unchanged. -/
theorem find_none_state_unchanged_witness :
    ((TextureAtlas.new 16 16).find 17 17).1 = none ∧
    ((TextureAtlas.new 16 16).find 17 17).2 = TextureAtlas.new 16 16 :=
  ⟨by decide, find_none_state_unchanged (TextureAtlas.new 16 16) 17 17 (by decide)⟩

/-! ### C9: evolution of the free-list length -/

/-- C9 counterexample: the claim says the free-list length never decreases,
but a perfect fit removes one free rectangle and pushes back nothing:
on a fresh 16×16 atlas, `find 16 16` shrinks the free list from 1 to 0. -/
theorem find_free_count_decreases_counterexample :
    (((TextureAtlas.new 16 16).find 16 16).2).free_rects.length
      < (TextureAtlas.new 16 16).free_rects.length := by decide

/-- C9 amended: each `find` call removes at most one free rectangle and pushes
back at most two leftover strips, so the free-list length changes by at most
one in either direction per call (it can decrease on a perfect fit). -/
theorem find_free_count_step (a : TextureAtlas) (w h : Int) :
    ((a.find w h).2).free_rects.length ≤ a.free_rects.length + 1 ∧
    a.free_rects.length ≤ ((a.find w h).2).free_rects.length + 1 := by
  cases hfb : findBest (w + a.padding * 2) (h + a.padding * 2) a.free_rects 0 none with
  | none => simp [TextureAtlas.find, hfb]
  | some best =>
    have hlt : best.2 < a.free_rects.length := by
      have := findBest_some_lt (w + a.padding * 2) (h + a.padding * 2) a.free_rects 0 none best
        (by intro b hb; cases hb) hfb
      omega
    have herase : (a.free_rects.eraseIdx best.2).length = a.free_rects.length - 1 := by
      rw [List.length_eraseIdx]
      simp [hlt]
    simp only [TextureAtlas.find, hfb]
    split <;> split <;> simp [herase] <;> omega

/-! ### C2: placed rectangles — counterexample and amended invariant -/

/-- C2 counterexample: the claim quantifies over every sequence of `find`
calls, but a call with a negative requested width corrupts the free list.
On a fresh 16×16 atlas (padding 0), `find (-16) 8` followed by `find 16 16`
returns the rectangle `(-16, 0, 16, 16)`, which does not lie within the
atlas bounds `[0,16) × [0,16)` — the point `(-16, 0)` is inside it. -/
theorem find_disjoint_counterexample :
    (runFinds (TextureAtlas.new 16 16) [(-16, 8), (16, 16)]).2.map (fun r => r.inflate 0)
      = [{ x := 0, y := 0, width := -16, height := 8 },
         { x := -16, y := 0, width := 16, height := 16 }] ∧
    ¬ Rect.InBounds { x := -16, y := 0, width := 16, height := 16 } 16 16 := by
  refine ⟨by decide, fun hib => ?_⟩
  have := hib (-16) 0 ⟨by norm_num, by norm_num, by norm_num, by norm_num⟩
  omega

/-- Containment of one rectangle's pixel set in another's. -/
def Rect.SubsetOf (r s : Rect) : Prop :=
  ∀ px py : Int, r.Contains px py → s.Contains px py

theorem Rect.Disjoint.symm {r s : Rect} (h : r.Disjoint s) : s.Disjoint r :=
  fun px py hc => h px py ⟨hc.2, hc.1⟩

theorem Rect.SubsetOf.disjoint_left {r s t : Rect} (hsub : r.SubsetOf s)
    (hd : s.Disjoint t) : r.Disjoint t :=
  fun px py hc => hd px py ⟨hsub px py hc.1, hc.2⟩

theorem Rect.SubsetOf.inBounds {r s : Rect} {W H : Int} (hsub : r.SubsetOf s)
    (hb : s.InBounds W H) : r.InBounds W H :=
  fun px py hc => hb px py (hsub px py hc)

/-- The packer invariant: all free rectangles and all (padding-inflated)
placed rectangles lie in bounds, and free and placed rectangles are mutually
and pairwise disjoint. -/
def AtlasInv (W H : Int) (a : TextureAtlas) (placed : List Rect) : Prop :=
  (∀ f ∈ a.free_rects, f.InBounds W H) ∧
  (∀ q ∈ placed, q.InBounds W H) ∧
  (∀ f ∈ a.free_rects, ∀ q ∈ placed, f.Disjoint q) ∧
  a.free_rects.Pairwise Rect.Disjoint ∧
  placed.Pairwise Rect.Disjoint

/-- For a symmetric relation, the element at an erased index is related to
every element that survives the erasure. -/
theorem pairwise_rel_eraseIdx {α : Type} {R : α → α → Prop}
    (hsym : ∀ a b, R a b → R b a) (l : List α) (j : Nat) (hp : l.Pairwise R)
    (hj : j < l.length) : ∀ x ∈ l.eraseIdx j, R l[j] x := by
  intro x hx
  rcases List.mem_eraseIdx_iff_getElem.1 hx with ⟨i, hi, hne, hix⟩
  rw [List.pairwise_iff_getElem] at hp
  rcases Nat.lt_or_ge i j with hij | hij
  · exact hsym _ _ (hix ▸ hp i j hi hj hij)
  · exact hix ▸ hp j i hj hi (by omega)

theorem carve_P_subset (F : Rect) (w h : Int) (hw : w ≤ F.width) (hh : h ≤ F.height) :
    Rect.SubsetOf { x := F.x, y := F.y, width := w, height := h } F := by
  intro px py hc
  simp only [Rect.Contains] at *
  omega

theorem strip_right_subset (F : Rect) (w : Int) (hw : 0 ≤ w) :
    Rect.SubsetOf { x := F.x + w, y := F.y, width := F.width - w, height := F.height } F := by
  intro px py hc
  simp only [Rect.Contains] at *
  omega

theorem strip_bottom_subset (F : Rect) (h bw : Int) (hh : 0 ≤ h) (hbw : bw ≤ F.width) :
    Rect.SubsetOf { x := F.x, y := F.y + h, width := bw, height := F.height - h } F := by
  intro px py hc
  simp only [Rect.Contains] at *
  omega

theorem strip_right_disj_P (F : Rect) (w h : Int) :
    Rect.Disjoint { x := F.x + w, y := F.y, width := F.width - w, height := F.height }
      { x := F.x, y := F.y, width := w, height := h } := by
  intro px py hc
  simp only [Rect.Contains] at hc
  omega

theorem strip_bottom_disj_P (F : Rect) (w h bw : Int) :
    Rect.Disjoint { x := F.x, y := F.y + h, width := bw, height := F.height - h }
      { x := F.x, y := F.y, width := w, height := h } := by
  intro px py hc
  simp only [Rect.Contains] at hc
  omega

theorem strip_right_disj_bottom (F : Rect) (w h bw : Int) (hbw : bw ≤ w) :
    Rect.Disjoint { x := F.x + w, y := F.y, width := F.width - w, height := F.height }
      { x := F.x, y := F.y + h, width := bw, height := F.height - h } := by
  intro px py hc
  simp only [Rect.Contains] at hc
  omega

/-- Replacing the chosen free rectangle by the placed rectangle plus leftover
strips (all contained in it and mutually disjoint) preserves the invariant. -/
theorem carve_inv (W H : Int) (free placed : List Rect) (j : Nat) (hj : j < free.length)
    (P : Rect) (strips : List Rect) (p : Int)
    (hfree_b : ∀ f ∈ free, f.InBounds W H)
    (hplaced_b : ∀ q ∈ placed, q.InBounds W H)
    (hfp : ∀ f ∈ free, ∀ q ∈ placed, f.Disjoint q)
    (hfree_pw : free.Pairwise Rect.Disjoint)
    (hplaced_pw : placed.Pairwise Rect.Disjoint)
    (hPsub : P.SubsetOf free[j])
    (hssub : ∀ s ∈ strips, s.SubsetOf free[j])
    (hsP : ∀ s ∈ strips, s.Disjoint P)
    (hspw : strips.Pairwise Rect.Disjoint) :
    AtlasInv W H { free_rects := free.eraseIdx j ++ strips, padding := p } (placed ++ [P]) := by
  have hFmem : free[j] ∈ free := List.getElem_mem hj
  have hFb : Rect.InBounds free[j] W H := hfree_b _ hFmem
  have hFer : ∀ x ∈ free.eraseIdx j, Rect.Disjoint free[j] x :=
    pairwise_rel_eraseIdx (fun _ _ hd => hd.symm) free j hfree_pw hj
  refine ⟨?_, ?_, ?_, ?_, ?_⟩
  · intro f hf
    rcases List.mem_append.1 hf with hf | hf
    · exact hfree_b f (List.Sublist.mem hf (List.eraseIdx_sublist free j))
    · exact (hssub f hf).inBounds hFb
  · intro q hq
    rcases List.mem_append.1 hq with hq | hq
    · exact hplaced_b q hq
    · rcases List.mem_singleton.1 hq with rfl
      exact hPsub.inBounds hFb
  · intro f hf q hq
    rcases List.mem_append.1 hf with hf | hf <;> rcases List.mem_append.1 hq with hq | hq
    · exact hfp f (List.Sublist.mem hf (List.eraseIdx_sublist free j)) q hq
    · rcases List.mem_singleton.1 hq with rfl
      exact (hPsub.disjoint_left (hFer f hf)).symm
    · exact (hssub f hf).disjoint_left (hfp _ hFmem q hq)
    · rcases List.mem_singleton.1 hq with rfl
      exact hsP f hf
  · rw [List.pairwise_append]
    refine ⟨hfree_pw.sublist (List.eraseIdx_sublist free j), hspw, ?_⟩
    intro x hx s hs
    exact ((hssub s hs).disjoint_left (hFer x hx)).symm
  · rw [List.pairwise_append]
    refine ⟨hplaced_pw, List.pairwise_singleton _ _, ?_⟩
    intro q hq P' hP'
    rcases List.mem_singleton.1 hP' with rfl
    exact (hPsub.disjoint_left ((hfp _ hFmem q hq).symm).symm).symm

theorem find_padding (a : TextureAtlas) (w h : Int) : ((a.find w h).2).padding = a.padding := by
  unfold TextureAtlas.find
  cases hfb : findBest (w + a.padding * 2) (h + a.padding * 2) a.free_rects 0 none <;> simp [hfb]

/-- One `find` call either fails leaving the atlas unchanged, or succeeds and
extends the invariant with the returned (re-inflated) rectangle. -/
theorem find_step (W H : Int) (a : TextureAtlas) (placed : List Rect) (reqw reqh : Int)
    (hpad : 0 ≤ a.padding) (hw : 0 ≤ reqw) (hh : 0 ≤ reqh) (hinv : AtlasInv W H a placed) :
    ((a.find reqw reqh).1 = none ∧ (a.find reqw reqh).2 = a) ∨
    ∃ r, (a.find reqw reqh).1 = some r ∧
      AtlasInv W H ((a.find reqw reqh).2) (placed ++ [r.inflate a.padding]) := by
  obtain ⟨hfball, hpb, hfp, hfpw, hppw⟩ := hinv
  cases hfb : findBest (reqw + a.padding * 2) (reqh + a.padding * 2) a.free_rects 0 none with
  | none =>
    left
    constructor <;> simp only [TextureAtlas.find, hfb]
  | some best =>
    rcases findBest_some_fit _ _ a.free_rects 0 none best hfb with hC | ⟨j, hj, hbj, hfw, hfh⟩
    · cases hC
    · right
      have hw0 : 0 ≤ reqw + a.padding * 2 := by omega
      have hh0 : 0 ≤ reqh + a.padding * 2 := by omega
      have hrect : a.free_rects.getD best.2 default = a.free_rects[j] := by
        rw [List.getD_eq_getElem?_getD, hbj]
        simp [List.getElem?_eq_getElem hj]
      set F := a.free_rects[j] with hF
      set w := reqw + a.padding * 2 with hwdef
      set h := reqh + a.padding * 2 with hhdef
      set rectW : Int := if 0 < F.width - w then w else F.width with hrW
      set strips : List Rect :=
        (if 0 < F.width - w then
          [{ x := F.x + w, y := F.y, width := F.width - w, height := F.height }] else []) ++
        (if 0 < F.height - h then
          [{ x := F.x, y := F.y + h, width := rectW, height := F.height - h }] else [])
        with hstrips
      have hfind : a.find reqw reqh =
          (some { x := F.x + a.padding, y := F.y + a.padding,
                  width := w - a.padding * 2, height := h - a.padding * 2 },
           { free_rects := a.free_rects.eraseIdx best.2 ++ strips, padding := a.padding }) := by
        simp only [TextureAtlas.find, hfb, hrect, ← hwdef, ← hhdef, ← hF, ← hrW, hstrips]
        by_cases hc1 : 0 < F.width - w <;> by_cases hc2 : 0 < F.height - h <;>
          simp [hc1, hc2, List.append_assoc]
      have hinfl : Rect.inflate
          ⟨F.x + a.padding, F.y + a.padding, w - a.padding * 2, h - a.padding * 2⟩ a.padding =
          { x := F.x, y := F.y, width := w, height := h } := by
        simp only [Rect.inflate, Rect.mk.injEq]
        omega
      refine ⟨_, by rw [hfind], ?_⟩
      rw [hfind, hinfl]
      have hbj' : best.2 = j := by omega
      rw [hbj']
      have hrWle : rectW ≤ F.width := by rw [hrW]; split <;> omega
      have hrWlew : rectW ≤ w := by rw [hrW]; split <;> omega
      refine carve_inv W H a.free_rects placed j hj _ strips a.padding hfball hpb hfp hfpw hppw
        (carve_P_subset F w h hfw hfh) ?_ ?_ ?_
      · intro s hs
        rw [hstrips] at hs
        rcases List.mem_append.1 hs with hs | hs <;> rw [List.mem_ite_nil_right] at hs <;>
          obtain ⟨-, hs⟩ := hs <;> rw [List.mem_singleton] at hs <;> subst hs
        · exact strip_right_subset F w hw0
        · exact strip_bottom_subset F h rectW hh0 hrWle
      · intro s hs
        rw [hstrips] at hs
        rcases List.mem_append.1 hs with hs | hs <;> rw [List.mem_ite_nil_right] at hs <;>
          obtain ⟨-, hs⟩ := hs <;> rw [List.mem_singleton] at hs <;> subst hs
        · exact strip_right_disj_P F w h
        · exact strip_bottom_disj_P F w h rectW
      · rw [hstrips]
        by_cases hc1 : 0 < F.width - w <;> by_cases hc2 : 0 < F.height - h <;>
          simp [hc1, hc2, strip_right_disj_bottom F w h rectW hrWlew]

theorem atlasInv_init (W H p : Int) : AtlasInv W H (TextureAtlas.new_padded W H p) [] := by
  refine ⟨?_, by simp, by simp, ?_, by simp⟩
  · intro f hf
    simp only [TextureAtlas.new_padded, List.mem_singleton] at hf
    subst hf
    intro px py hc
    simp only [Rect.Contains] at hc
    omega
  · simp [TextureAtlas.new_padded]

theorem runFinds_inv (W H : Int) : ∀ (reqs : List (Int × Int)) (a : TextureAtlas)
    (placed : List Rect), 0 ≤ a.padding → (∀ r ∈ reqs, 0 ≤ r.1 ∧ 0 ≤ r.2) →
    AtlasInv W H a placed →
    AtlasInv W H (runFinds a reqs).1
      (placed ++ (runFinds a reqs).2.map (fun r => r.inflate a.padding)) := by
  intro reqs
  induction reqs with
  | nil =>
    intro a placed hp _ hinv
    simpa [runFinds] using hinv
  | cons req rest ih =>
    intro a placed hp hreq hinv
    have hstep := find_step W H a placed req.1 req.2 hp
      (hreq req (List.mem_cons_self req rest)).1 (hreq req (List.mem_cons_self req rest)).2 hinv
    have hpad' : ((a.find req.1 req.2).2).padding = a.padding := find_padding a req.1 req.2
    cases hf : TextureAtlas.find a req.1 req.2 with
    | mk o a' =>
      rcases hstep with ⟨hnone, heq⟩ | ⟨r, hsome, hinv'⟩
      · rw [hf] at hnone heq
        simp only at hnone heq
        subst hnone
        have hrun : runFinds a (req :: rest) = runFinds a' rest := by simp [runFinds, hf]
        rw [hrun, heq]
        exact ih a placed hp (fun r hr => hreq r (List.mem_cons_of_mem req hr)) hinv
      · rw [hf] at hsome hinv'
        simp only at hsome
        subst hsome
        rw [hf] at hpad'
        simp only at hpad'
        have := ih a' (placed ++ [r.inflate a.padding])
          (by rw [← hpad'] at hp; exact hp)
          (fun r hr => hreq r (List.mem_cons_of_mem req hr)) (by simpa using hinv')
        rw [hpad'] at this
        simpa [runFinds, hf, List.append_assoc] using this

/-- C2 amended: the claim holds provided the padding and every requested
width and height are nonnegative (negative requests, as the counterexample
shows, corrupt the free list): for every sequence of `find` calls on an
atlas created with `new` or `new_padded`, the returned rectangles, each
re-inflated by the atlas padding on all sides, are pairwise disjoint and lie
within the atlas bounds `[0,W) × [0,H)`. -/
theorem find_rects_disjoint_inBounds (W H p : Int) (reqs : List (Int × Int)) (a₀ : TextureAtlas)
    (h₀ : a₀ = TextureAtlas.new W H ∨ a₀ = TextureAtlas.new_padded W H p) (hp : 0 ≤ p)
    (hreq : ∀ r ∈ reqs, 0 ≤ r.1 ∧ 0 ≤ r.2) :
    ((runFinds a₀ reqs).2.map (fun r => r.inflate a₀.padding)).Pairwise Rect.Disjoint ∧
    ∀ q ∈ (runFinds a₀ reqs).2.map (fun r => r.inflate a₀.padding), q.InBounds W H := by
  have hinv : AtlasInv W H a₀ [] := by
    rcases h₀ with rfl | rfl
    · exact atlasInv_init W H 0
    · exact atlasInv_init W H p
  have hp0 : 0 ≤ a₀.padding := by
    rcases h₀ with rfl | rfl
    · simp [TextureAtlas.new]
    · simpa [TextureAtlas.new_padded] using hp
  have := runFinds_inv W H reqs a₀ [] hp0 hreq hinv
  simp only [List.nil_append] at this
  exact ⟨this.2.2.2.2, this.2.1⟩

/-- C2 amended witness: a padded 16×16 atlas with two small requests. -/
theorem find_rects_disjoint_inBounds_witness :
    (0:Int) ≤ 1 ∧ (∀ r ∈ [((4:Int), (4:Int)), (3, 3)], 0 ≤ r.1 ∧ 0 ≤ r.2) ∧
    (((runFinds (TextureAtlas.new_padded 16 16 1) [(4, 4), (3, 3)]).2.map
        (fun r => r.inflate (TextureAtlas.new_padded 16 16 1).padding)).Pairwise Rect.Disjoint ∧
      ∀ q ∈ (runFinds (TextureAtlas.new_padded 16 16 1) [(4, 4), (3, 3)]).2.map
        (fun r => r.inflate (TextureAtlas.new_padded 16 16 1).padding), q.InBounds 16 16) :=
  ⟨by decide, by decide,
    find_rects_disjoint_inBounds 16 16 1 [(4, 4), (3, 3)] (TextureAtlas.new_padded 16 16 1)
      (Or.inr rfl) (by decide) (by decide)⟩

/-! ## ChunkAlloc (src/render/alloc.rs) -/

/-- The allocation kind tag (`Type` in the Rust source; `Type` is reserved in
Lean). -/
inductive Ty
  | buffer
  | image
deriving DecidableEq, Repr

def CHUNK_SIZE : Nat := 8 * 1024

def REGION_SIZE : Nat := 64 * 1024 * 1024

/-- `ChunkAlloc`.  The `used` bitset is `crate::bitset::BitSet`; `src/bitset.rs`
is part of the repository but is not available here, so it is modelled from
the spec: "maintains a bitset of chunk occupancy", sized to the chunk count,
with get/set by index.  We represent it as a list of booleans; a `get` at an
out-of-range index reads `false`, and out-of-range writes are guarded at the
allocator's claim step (see `allocLoop`), where the Rust `Vec`-backed
structures panic. -/
structure ChunkAlloc where
  chunks : Nat
  used : List Bool
  used_types : List (Option Ty)
  buffer_image_granularity : Nat
deriving DecidableEq, Repr

def ChunkAlloc.new (size buffer_image_granularity : Nat) : ChunkAlloc :=
  { chunks := size / CHUNK_SIZE
  , used := List.replicate (size / CHUNK_SIZE) false
  , used_types := List.replicate (size / buffer_image_granularity) none
  , buffer_image_granularity := buffer_image_granularity }

/-- The claim block of `ChunkAlloc::allocate` (`for off in 0..chunks`): mark
every covered chunk used and stamp the granularity unit containing each
covered chunk's start with the requested kind.  Written as recursion on the
chunk count; `markUsed c ty idx (n+1)` performs the loop body for `off = n`
after the first `n` iterations. -/
def markUsed (c : ChunkAlloc) (ty : Ty) (idx : Nat) : Nat → ChunkAlloc
  | 0 => c
  | n + 1 =>
    let s := markUsed c ty idx n
    { s with used := s.used.set (idx + n) true
           , used_types := s.used_types.set
               ((idx + n) * CHUNK_SIZE / s.buffer_image_granularity) (some ty) }

/-- The boundary-tag compatibility adjustment inside the search loop:
`idx += skip` when the unit is tagged with an incompatible kind (note: the
code falls through without re-checking the new candidate). -/
def bump (ty : Ty) (typ : Option Ty) (idx skip : Nat) : Nat :=
  if typ ≠ none ∧ typ ≠ some ty then idx + skip else idx

/-- The `'search` loop of `ChunkAlloc::allocate`.  Each pass checks the
granularity-unit tags at the candidate's start and end boundaries (skipping
ahead by `skip` on an incompatible tag — without re-checking, exactly as the
Rust code), then scans the chunk run for a used chunk (advancing by one on
conflict), and otherwise claims the run.  `fuel` bounds the number of passes:
each pass either returns or strictly increases `idx`, and once
`idx * CHUNK_SIZE / granularity` reaches the tag-table length the first lookup
returns `None` through the `?` operator, so the fuel passed by `allocate` is
never exhausted; fuel 0 returns `none` exactly as that bounds check would.
The claim step guards its writes: where a write would be out of range the
Rust `Vec`-backed structures panic, and a panicking call produces no
allocation, modelled as a `none` result with the state unchanged. -/
def allocLoop (c : ChunkAlloc) (ty : Ty) (size chunks skip : Nat) :
    Nat → Nat → Option (Nat × Nat) × ChunkAlloc
  | 0, _ => (none, c)
  | fuel + 1, idx0 =>
    match c.used_types.get? (idx0 * CHUNK_SIZE / c.buffer_image_granularity) with
    | none => (none, c)
    | some typ =>
      let idx1 := bump ty typ idx0 skip
      match c.used_types.get? ((idx1 + chunks) * CHUNK_SIZE / c.buffer_image_granularity) with
      | none => (none, c)
      | some typ2 =>
        let idx := bump ty typ2 idx1 skip
        if (List.range chunks).any (fun off => c.used.getD (idx + off) false) then
          allocLoop c ty size chunks skip fuel (idx + 1)
        else if (List.range chunks).all (fun off =>
            decide (idx + off < c.used.length) &&
            decide ((idx + off) * CHUNK_SIZE / c.buffer_image_granularity
              < c.used_types.length)) then
          (some (idx * CHUNK_SIZE, idx * CHUNK_SIZE + size), markUsed c ty idx chunks)
        else (none, c)

/-- `ChunkAlloc::allocate`.  The Rust function first asserts
`CHUNK_SIZE % align == 0`; a failed assertion panics and produces no
allocation, modelled as a `none` result. -/
def ChunkAlloc.allocate (c : ChunkAlloc) (ty : Ty) (size align : Nat) :
    Option (Nat × Nat) × ChunkAlloc :=
  if CHUNK_SIZE % align ≠ 0 then (none, c)
  else
    let chunks := (size + (CHUNK_SIZE - 1)) / CHUNK_SIZE
    let skip := (c.buffer_image_granularity + (CHUNK_SIZE - 1)) / CHUNK_SIZE
    allocLoop c ty size chunks skip
      (c.chunks + (c.used_types.length + 2) * (skip + 2) + 4) 0

/-- `ChunkAlloc::free`: clear the chunk-occupancy bits for
`ceil(start/CHUNK_SIZE) .. ceil(end/CHUNK_SIZE)`; the type tags are not
touched. -/
def ChunkAlloc.free (c : ChunkAlloc) (start stop : Nat) : ChunkAlloc :=
  let s := (start + (CHUNK_SIZE - 1)) / CHUNK_SIZE
  let e := (stop + (CHUNK_SIZE - 1)) / CHUNK_SIZE
  { c with used := (List.range (e - s)).foldl (fun l i => l.set (s + i) false) c.used }

inductive AllocOp
  | alloc (ty : Ty) (size align : Nat)
  | free (i : Nat)

/-- Run a sequence of allocator operations, tracking the currently-live
allocations.  `free i` frees the `i`-th live allocation — the claim's
precondition is that `free` is only called with ranges previously returned by
`allocate` and not yet freed, so a `free` naming no live allocation is
ignored. -/
def runAllocOps : ChunkAlloc → List (Nat × Nat) → List AllocOp → ChunkAlloc × List (Nat × Nat)
  | c, live, [] => (c, live)
  | c, live, AllocOp.alloc ty size align :: rest =>
    (match ChunkAlloc.allocate c ty size align with
     | (some r, c') => runAllocOps c' (live ++ [r]) rest
     | (none, c') => runAllocOps c' live rest)
  | c, live, AllocOp.free i :: rest =>
    (match live.get? i with
     | some r => runAllocOps (ChunkAlloc.free c r.1 r.2) (live.eraseIdx i) rest
     | none => runAllocOps c live rest)

/-- The first chunk of an allocation's chunk span. -/
def spanStart (r : Nat × Nat) : Nat := r.1 / CHUNK_SIZE

/-- One past the last chunk of an allocation's chunk span. -/
def spanEnd (r : Nat × Nat) : Nat := (r.2 + (CHUNK_SIZE - 1)) / CHUNK_SIZE

/-- Two byte ranges (start, end) are disjoint. -/
def RangeDisjoint (a b : Nat × Nat) : Prop :=
  ∀ x : Nat, ¬(a.1 ≤ x ∧ x < a.2 ∧ b.1 ≤ x ∧ x < b.2)

/-- Two allocations' chunk spans share no chunk. -/
def SpanDisjoint (a b : Nat × Nat) : Prop :=
  ∀ j : Nat, ¬(spanStart a ≤ j ∧ j < spanEnd a ∧ spanStart b ≤ j ∧ j < spanEnd b)

/-- The allocator invariant: every live allocation starts on a chunk boundary,
is a forward range, and has its whole chunk span marked used, and the live
spans are pairwise disjoint. -/
def AllocInv (c : ChunkAlloc) (live : List (Nat × Nat)) : Prop :=
  (∀ r ∈ live, CHUNK_SIZE ∣ r.1 ∧ r.1 ≤ r.2 ∧
    ∀ j, spanStart r ≤ j → j < spanEnd r → c.used.getD j false = true) ∧
  live.Pairwise SpanDisjoint

/-! ### Lemmas about markUsed, the search loop, and free -/

theorem markUsed_used_length (c : ChunkAlloc) (ty : Ty) (idx : Nat) :
    ∀ n, (markUsed c ty idx n).used.length = c.used.length := by
  intro n
  induction n with
  | zero => rfl
  | succ n ih => simp [markUsed, List.length_set, ih]

theorem markUsed_types_length (c : ChunkAlloc) (ty : Ty) (idx : Nat) :
    ∀ n, (markUsed c ty idx n).used_types.length = c.used_types.length := by
  intro n
  induction n with
  | zero => rfl
  | succ n ih => simp [markUsed, List.length_set, ih]

theorem markUsed_gran (c : ChunkAlloc) (ty : Ty) (idx : Nat) :
    ∀ n, (markUsed c ty idx n).buffer_image_granularity = c.buffer_image_granularity := by
  intro n
  induction n with
  | zero => rfl
  | succ n ih => simp [markUsed, ih]

theorem getD_true_lt_length {l : List Bool} {j : Nat} (h : l.getD j false = true) :
    j < l.length := by
  by_contra hc
  rw [List.getD_eq_getElem?_getD, List.getElem?_eq_none (by omega)] at h
  simp at h

theorem markUsed_used_mono (c : ChunkAlloc) (ty : Ty) (idx : Nat) :
    ∀ n j, c.used.getD j false = true → (markUsed c ty idx n).used.getD j false = true := by
  intro n
  induction n with
  | zero => intro j h; exact h
  | succ n ih =>
    intro j h
    have hjlen : j < c.used.length := getD_true_lt_length h
    show ((markUsed c ty idx n).used.set (idx + n) true).getD j false = true
    rw [List.getD_eq_getElem?_getD, List.getElem?_set]
    by_cases hj : idx + n = j
    · rw [if_pos hj, if_pos (by rw [markUsed_used_length]; omega)]
      rfl
    · rw [if_neg hj, ← List.getD_eq_getElem?_getD]
      exact ih j h

theorem markUsed_marks (c : ChunkAlloc) (ty : Ty) (idx : Nat) :
    ∀ n j, idx ≤ j → j < idx + n → j < c.used.length →
    (markUsed c ty idx n).used.getD j false = true := by
  intro n
  induction n with
  | zero => intro j h1 h2 _; omega
  | succ n ih =>
    intro j h1 h2 h3
    show ((markUsed c ty idx n).used.set (idx + n) true).getD j false = true
    rw [List.getD_eq_getElem?_getD, List.getElem?_set]
    by_cases hj : idx + n = j
    · rw [if_pos hj, if_pos (by rw [markUsed_used_length]; omega)]
      rfl
    · rw [if_neg hj, ← List.getD_eq_getElem?_getD]
      exact ih j h1 (by omega) h3

theorem markUsed_stamps (c : ChunkAlloc) (ty : Ty) (idx : Nat) :
    ∀ n, (∀ off, off < n →
        (idx + off) * CHUNK_SIZE / c.buffer_image_granularity < c.used_types.length) →
    ∀ off, off < n → (markUsed c ty idx n).used_types.getD
      ((idx + off) * CHUNK_SIZE / c.buffer_image_granularity) none = some ty := by
  intro n
  induction n with
  | zero => intro _ off h; omega
  | succ n ih =>
    intro hb off hoff
    show ((markUsed c ty idx n).used_types.set
      ((idx + n) * CHUNK_SIZE / (markUsed c ty idx n).buffer_image_granularity)
      (some ty)).getD _ none = some ty
    rw [markUsed_gran, List.getD_eq_getElem?_getD, List.getElem?_set]
    by_cases hk : (idx + n) * CHUNK_SIZE / c.buffer_image_granularity
        = (idx + off) * CHUNK_SIZE / c.buffer_image_granularity
    · rw [if_pos hk, if_pos (by rw [markUsed_types_length]; exact hb n (by omega))]
      rfl
    · rw [if_neg hk, ← List.getD_eq_getElem?_getD]
      have hoffn : off ≠ n := by
        intro he
        exact hk (by rw [he])
      exact ih (fun o ho => hb o (by omega)) off (by omega)

theorem allocLoop_none_state (c : ChunkAlloc) (ty : Ty) (size chunks skip : Nat) :
    ∀ fuel idx0 c', allocLoop c ty size chunks skip fuel idx0 = (none, c') → c' = c := by
  intro fuel
  induction fuel with
  | zero =>
    intro idx0 c' h
    simp only [allocLoop, Prod.mk.injEq] at h
    exact h.2.symm
  | succ fuel ih =>
    intro idx0 c' h
    simp only [allocLoop] at h
    split at h
    · rw [Prod.mk.injEq] at h
      exact h.2.symm
    · split at h
      · rw [Prod.mk.injEq] at h
        exact h.2.symm
      · split at h
        · exact ih _ _ h
        · split at h
          · simp at h
          · rw [Prod.mk.injEq] at h
            exact h.2.symm

theorem allocLoop_some_spec (c : ChunkAlloc) (ty : Ty) (size chunks skip : Nat) :
    ∀ fuel idx0 r c', allocLoop c ty size chunks skip fuel idx0 = (some r, c') →
    ∃ idx, r = (idx * CHUNK_SIZE, idx * CHUNK_SIZE + size) ∧
      (∀ off, off < chunks → c.used.getD (idx + off) false = false) ∧
      (∀ off, off < chunks → idx + off < c.used.length ∧
        (idx + off) * CHUNK_SIZE / c.buffer_image_granularity < c.used_types.length) ∧
      c' = markUsed c ty idx chunks := by
  intro fuel
  induction fuel with
  | zero =>
    intro idx0 r c' h
    simp [allocLoop] at h
  | succ fuel ih =>
    intro idx0 r c' h
    simp only [allocLoop] at h
    split at h
    · simp at h
    · split at h
      · simp at h
      · split at h
        · exact ih _ _ _ h
        next hany =>
          split at h
          next hall =>
            rw [Prod.mk.injEq] at h
            obtain ⟨h1, h2⟩ := h
            rw [Bool.not_eq_true, List.any_eq_false] at hany
            rw [List.all_eq_true] at hall
            injection h1 with h1
            refine ⟨_, h1.symm, ?_, ?_, h2.symm⟩
            · intro off hoff
              have := hany _ (List.mem_range.2 hoff)
              simpa using this
            · intro off hoff
              have := hall _ (List.mem_range.2 hoff)
              simpa using this
          next _ => simp at h

theorem allocate_none_state (c : ChunkAlloc) (ty : Ty) (size align : Nat) (c' : ChunkAlloc)
    (h : c.allocate ty size align = (none, c')) : c' = c := by
  unfold ChunkAlloc.allocate at h
  split at h
  · exact (Prod.mk.injEq _ _ _ _ ▸ h).2.symm
  · exact allocLoop_none_state c ty size _ _ _ _ _ h

theorem foldl_set_false_getD_outside (s : Nat) : ∀ (n : Nat) (l : List Bool) (j : Nat),
    (j < s ∨ s + n ≤ j) →
    ((List.range n).foldl (fun l i => l.set (s + i) false) l).getD j false = l.getD j false := by
  intro n
  induction n with
  | zero => intro l j _; simp
  | succ n ih =>
    intro l j hj
    rw [List.range_succ, List.foldl_append]
    simp only [List.foldl_cons, List.foldl_nil]
    rw [List.getD_eq_getElem?_getD, List.getElem?_set, if_neg (by omega),
      ← List.getD_eq_getElem?_getD]
    exact ih l j (by omega)

/-! ### The allocator invariant is preserved -/

theorem allocInv_alloc_some (c c' : ChunkAlloc) (live : List (Nat × Nat)) (ty : Ty)
    (size align : Nat) (r : Nat × Nat) (hinv : AllocInv c live)
    (h : c.allocate ty size align = (some r, c')) : AllocInv c' (live ++ [r]) := by
  obtain ⟨helem, hpw⟩ := hinv
  unfold ChunkAlloc.allocate at h
  split at h
  · simp at h
  · obtain ⟨idx, hr, hfree, hbounds, hc'⟩ := allocLoop_some_spec c ty size _ _ _ _ _ _ h
    subst hc'
    subst hr
    have hchunks : ∀ j, spanStart (idx * CHUNK_SIZE, idx * CHUNK_SIZE + size) ≤ j →
        j < spanEnd (idx * CHUNK_SIZE, idx * CHUNK_SIZE + size) →
        idx ≤ j ∧ j < idx + (size + (CHUNK_SIZE - 1)) / CHUNK_SIZE := by
      intro j h1 h2
      simp only [spanStart, spanEnd, CHUNK_SIZE] at h1 h2 ⊢
      omega
    constructor
    · intro q hq
      rcases List.mem_append.1 hq with hq | hq
      · obtain ⟨hdvd, hle, hmark⟩ := helem q hq
        exact ⟨hdvd, hle, fun j h1 h2 => markUsed_used_mono c ty idx _ j (hmark j h1 h2)⟩
      · rcases List.mem_singleton.1 hq with rfl
        refine ⟨⟨idx, by simp [Nat.mul_comm]⟩, by omega, ?_⟩
        intro j h1 h2
        obtain ⟨hj1, hj2⟩ := hchunks j h1 h2
        exact markUsed_marks c ty idx _ j hj1 hj2 (by
          have := (hbounds (j - idx) (by omega)).1
          omega)
    · rw [List.pairwise_append]
      refine ⟨hpw, List.pairwise_singleton _ _, ?_⟩
      intro a ha b hb
      rcases List.mem_singleton.1 hb with rfl
      intro j hj
      obtain ⟨hsa, hea, hsr, her⟩ := hj
      obtain ⟨hj1, hj2⟩ := hchunks j hsr her
      have hmarked := (helem a ha).2.2 j hsa hea
      have hfree' := hfree (j - idx) (by omega)
      rw [show idx + (j - idx) = j by omega] at hfree'
      rw [hmarked] at hfree'
      cases hfree'

theorem allocInv_free (c : ChunkAlloc) (live : List (Nat × Nat)) (i : Nat) (r : Nat × Nat)
    (hinv : AllocInv c live) (hr : live.get? i = some r) :
    AllocInv (c.free r.1 r.2) (live.eraseIdx i) := by
  obtain ⟨helem, hpw⟩ := hinv
  have hilt : i < live.length := by
    by_contra hc
    rw [List.get?_eq_getElem?, List.getElem?_eq_none (by omega)] at hr
    cases hr
  have hri : live[i] = r := by
    rw [List.get?_eq_getElem?, List.getElem?_eq_getElem hilt] at hr
    injection hr
  have hrd : ∀ x ∈ live.eraseIdx i, SpanDisjoint r x := by
    have := pairwise_rel_eraseIdx (R := SpanDisjoint)
      (fun a b hd j hj => hd j ⟨hj.2.2.1, hj.2.2.2, hj.1, hj.2.1⟩) live i hpw hilt
    rw [hri] at this
    exact this
  obtain ⟨hdvdr, hler, _⟩ := helem r (hri ▸ List.getElem_mem hilt)
  have hse : (r.1 + (CHUNK_SIZE - 1)) / CHUNK_SIZE = spanStart r := by
    obtain ⟨k, hk⟩ := hdvdr
    simp only [spanStart, CHUNK_SIZE] at *
    omega
  constructor
  · intro q hq
    have hqmem : q ∈ live := List.Sublist.mem hq (List.eraseIdx_sublist live i)
    obtain ⟨hdvd, hle, hmark⟩ := helem q hqmem
    refine ⟨hdvd, hle, ?_⟩
    intro j h1 h2
    have hdisj := hrd q hq j
    have houtside : j < spanStart r ∨ spanEnd r ≤ j := by
      by_contra hc
      push_neg at hc
      exact hdisj ⟨hc.1, hc.2, h1, h2⟩
    show ((List.range ((r.2 + (CHUNK_SIZE - 1)) / CHUNK_SIZE
        - (r.1 + (CHUNK_SIZE - 1)) / CHUNK_SIZE)).foldl
      (fun l k => l.set ((r.1 + (CHUNK_SIZE - 1)) / CHUNK_SIZE + k) false) c.used).getD j false
      = true
    rw [foldl_set_false_getD_outside]
    · exact hmark j h1 h2
    · rw [hse]
      have hsele : spanStart r ≤ spanEnd r := by
        simp only [spanStart, spanEnd, CHUNK_SIZE] at *
        omega
      simp only [spanEnd] at houtside ⊢
      omega
  · exact hpw.sublist (List.eraseIdx_sublist live i)

theorem runAllocOps_inv : ∀ (ops : List AllocOp) (c : ChunkAlloc) (live : List (Nat × Nat)),
    AllocInv c live → AllocInv (runAllocOps c live ops).1 (runAllocOps c live ops).2 := by
  intro ops
  induction ops with
  | nil => intro c live h; exact h
  | cons op rest ih =>
    intro c live h
    cases op with
    | alloc ty size align =>
      cases hall : ChunkAlloc.allocate c ty size align with
      | mk o c' =>
        cases o with
        | none =>
          have hc : c' = c := allocate_none_state c ty size align c' hall
          have hinv' : AllocInv c' live := by rw [hc]; exact h
          simpa only [runAllocOps, hall] using ih c' live hinv'
        | some r =>
          simpa only [runAllocOps, hall] using
            ih c' (live ++ [r]) (allocInv_alloc_some c c' live ty size align r h hall)
    | free i =>
      cases hget : live.get? i with
      | none => simpa only [runAllocOps, hget] using ih c live h
      | some r =>
        simpa only [runAllocOps, hget] using
          ih (c.free r.1 r.2) (live.eraseIdx i) (allocInv_free c live i r h hget)

/-- C1: for every sequence of `allocate`/`free` calls on a `ChunkAlloc`
(where `free` is only called with ranges previously returned by `allocate`
and not yet freed), the byte ranges of the currently-live allocations are
pairwise disjoint at every point in the sequence. -/
theorem live_ranges_pairwise_disjoint (total g : Nat) (ops : List AllocOp) :
    ((runAllocOps (ChunkAlloc.new total g) [] ops).2).Pairwise RangeDisjoint := by
  obtain ⟨helem, hpw⟩ := runAllocOps_inv ops (ChunkAlloc.new total g) []
    ⟨by simp, List.Pairwise.nil⟩
  rw [List.pairwise_iff_getElem] at hpw ⊢
  intro i j hi hj hij
  have hsd := hpw i j hi hj hij
  obtain ⟨hda, hla, _⟩ := helem _ (List.getElem_mem hi)
  obtain ⟨hdb, hlb, _⟩ := helem _ (List.getElem_mem hj)
  intro x hx
  obtain ⟨h1, h2, h3, h4⟩ := hx
  apply hsd (x / CHUNK_SIZE)
  obtain ⟨ka, hka⟩ := hda
  obtain ⟨kb, hkb⟩ := hdb
  simp only [spanStart, spanEnd, CHUNK_SIZE] at *
  omega

/-! ### C3: boundary tags and post-state of a successful allocation -/

/-- C3 counterexample: the claim says the boundary granularity units of the
returned range were untagged or tagged with the same kind before the call.
But `free` never clears tags, and the search loop skips ahead on an
incompatible start tag without re-checking the new candidate's start.
On a 4-chunk allocator with granularity = `CHUNK_SIZE`: allocate a 2-chunk
buffer, free it (tags remain `buffer`), then allocate a 1-chunk image.  The
image allocation returns the range `(8192, 16384)`, whose start boundary
lies in granularity unit 1 — still tagged `buffer`, an incompatible kind. -/
theorem allocate_boundary_tag_counterexample :
    ((ChunkAlloc.new 32768 8192).allocate Ty.buffer 16384 1).1 = some (0, 16384) ∧
    ((((ChunkAlloc.new 32768 8192).allocate Ty.buffer 16384 1).2.free 0 16384).allocate
      Ty.image 8192 1).1 = some (8192, 16384) ∧
    (((ChunkAlloc.new 32768 8192).allocate Ty.buffer 16384 1).2.free 0
      16384).used_types.getD (8192 / 8192) none = some Ty.buffer ∧
    some Ty.buffer ≠ some Ty.image := by
  refine ⟨by decide, by decide, by decide, by decide⟩

/-- C3 amended: after a successful `allocate(kind, size, align)` returning a
range starting at chunk `idx`, every covered chunk is marked used and, for
every covered chunk, the granularity unit containing that chunk's start is
stamped with the requested kind.  (The boundary units are checked per
candidate during the scan, but a skip taken after the check is not re-checked,
so — as the counterexample shows — the returned range's boundary units may
retain an incompatible stale tag from a freed allocation.) -/
theorem allocate_some_marks_and_stamps (c : ChunkAlloc) (ty : Ty) (size align : Nat)
    (r : Nat × Nat) (h : (c.allocate ty size align).1 = some r) :
    ∃ idx, r = (idx * CHUNK_SIZE, idx * CHUNK_SIZE + size) ∧
      ∀ off, off < (size + (CHUNK_SIZE - 1)) / CHUNK_SIZE →
        ((c.allocate ty size align).2).used.getD (idx + off) false = true ∧
        ((c.allocate ty size align).2).used_types.getD
          ((idx + off) * CHUNK_SIZE / c.buffer_image_granularity) none = some ty := by
  cases hres : c.allocate ty size align with
  | mk o c2 =>
    rw [hres] at h
    simp only at h
    subst h
    have hres' := hres
    unfold ChunkAlloc.allocate at hres'
    split at hres'
    · simp at hres'
    · obtain ⟨idx, hr, hfree, hbounds, hc2⟩ := allocLoop_some_spec c ty size _ _ _ _ _ _ hres'
      subst hc2
      refine ⟨idx, hr, ?_⟩
      intro off hoff
      exact ⟨markUsed_marks c ty idx _ (idx + off) (by omega) (by omega) (hbounds off hoff).1,
        markUsed_stamps c ty idx _ (fun o ho => (hbounds o ho).2) off hoff⟩

/-- C3 amended witness: the first allocation of the counterexample trace,
checked against the amended statement at `off = 0`. -/
theorem allocate_some_marks_and_stamps_witness :
    ((ChunkAlloc.new 32768 8192).allocate Ty.buffer 16384 1).1 = some (0, 16384) ∧
    ∃ idx, ((0:Nat), (16384:Nat)) = (idx * CHUNK_SIZE, idx * CHUNK_SIZE + 16384) ∧
      ∀ off, off < (16384 + (CHUNK_SIZE - 1)) / CHUNK_SIZE →
        (((ChunkAlloc.new 32768 8192).allocate Ty.buffer 16384 1).2).used.getD (idx + off) false
          = true ∧
        (((ChunkAlloc.new 32768 8192).allocate Ty.buffer 16384 1).2).used_types.getD
          ((idx + off) * CHUNK_SIZE / (ChunkAlloc.new 32768 8192).buffer_image_granularity) none
          = some Ty.buffer :=
  ⟨by decide, allocate_some_marks_and_stamps (ChunkAlloc.new 32768 8192) Ty.buffer 16384 1
    (0, 16384) (by decide)⟩


/-! ### C8: allocation inside a freshly created region -/

theorem allocate_fresh_end_out_of_range (total g size align : Nat) (ty : Ty)
    (halign : CHUNK_SIZE % align = 0) (hpos : 0 < total / g)
    (hend : total / g ≤ ((size + (CHUNK_SIZE - 1)) / CHUNK_SIZE) * CHUNK_SIZE / g) :
    (ChunkAlloc.allocate (ChunkAlloc.new total g) ty size align).1 = none := by
  have halign' : ¬ CHUNK_SIZE % align ≠ 0 := by simp [halign]
  have h2 : ¬ ((size + (CHUNK_SIZE - 1)) / CHUNK_SIZE) * CHUNK_SIZE / g < total / g := by omega
  simp only [ChunkAlloc.allocate, if_neg halign', ChunkAlloc.new]
  rw [show ∀ x : Nat, x + 4 = (x + 3) + 1 from fun x => rfl]
  rw [allocLoop]
  simp [List.get?_eq_getElem?, List.getElem?_replicate, hpos, bump, h2]

theorem allocate_fresh_success (total g size align : Nat) (ty : Ty)
    (halign : CHUNK_SIZE % align = 0)
    (hend : ((size + (CHUNK_SIZE - 1)) / CHUNK_SIZE) * CHUNK_SIZE / g < total / g) :
    (ChunkAlloc.allocate (ChunkAlloc.new total g) ty size align).1 = some (0, size) := by
  have hpos : 0 < total / g := Nat.lt_of_le_of_lt (Nat.zero_le _) hend
  have hlt : ((size + (CHUNK_SIZE - 1)) / CHUNK_SIZE) * CHUNK_SIZE < total := by
    by_contra hc
    push_neg at hc
    have := Nat.div_le_div_right (c := g) hc
    omega
  have hchunklen : (size + (CHUNK_SIZE - 1)) / CHUNK_SIZE ≤ total / CHUNK_SIZE := by
    simp only [CHUNK_SIZE] at *
    omega
  have halign' : ¬ CHUNK_SIZE % align ≠ 0 := by simp [halign]
  have hall : ∀ x, x < (size + (CHUNK_SIZE - 1)) / CHUNK_SIZE →
      x < total / CHUNK_SIZE ∧ x * CHUNK_SIZE / g < total / g := by
    intro x hx
    refine ⟨by omega, ?_⟩
    calc x * CHUNK_SIZE / g
        ≤ ((size + (CHUNK_SIZE - 1)) / CHUNK_SIZE) * CHUNK_SIZE / g :=
          Nat.div_le_div_right (Nat.mul_le_mul_right _ (by omega))
      _ < total / g := hend
  simp only [ChunkAlloc.allocate, if_neg halign', ChunkAlloc.new]
  rw [show ∀ x : Nat, x + 4 = (x + 3) + 1 from fun x => rfl]
  rw [allocLoop]
  simp [List.get?_eq_getElem?, List.getElem?_replicate, hpos, bump, hend]
  have hno : ¬ ∃ x, x < (size + (CHUNK_SIZE - 1)) / CHUNK_SIZE ∧
      (if x < total / CHUNK_SIZE then some false else none).getD false = true := by
    rintro ⟨x, hx, hv⟩
    revert hv
    split <;> simp
  rw [if_neg hno, if_pos hall]

/-- C8 counterexample: the claim says the fresh-region retry succeeds for
every size not exceeding `REGION_SIZE`, but at `size = REGION_SIZE` the range
end's granularity-unit index equals the tag-table length, the bounds-checked
lookup fails through the `?` operator, and `allocate` returns `None` — so the
"Failed to allocate memory" panic fires.  (Granularity 1024 is a typical
`buffer_image_granularity`.) -/
theorem fresh_region_allocate_full_size_counterexample :
    REGION_SIZE ≤ REGION_SIZE ∧
    (ChunkAlloc.allocate (ChunkAlloc.new REGION_SIZE 1024) Ty.buffer REGION_SIZE 1).1 = none :=
  ⟨Nat.le_refl _, allocate_fresh_end_out_of_range REGION_SIZE 1024 REGION_SIZE 1 Ty.buffer
    (by decide) (by decide) (by decide)⟩

/-- C8 amended: on a freshly created `ChunkAlloc` of `REGION_SIZE`, `allocate`
succeeds (returning the range starting at offset 0) for every request whose
end boundary's granularity-unit index stays strictly inside the tag table:
`ceil(size/CHUNK_SIZE)*CHUNK_SIZE/granularity < REGION_SIZE/granularity`.
Under that precondition the "Failed to allocate memory" panic is unreachable;
at `size = REGION_SIZE` itself the index falls off the table and the
allocation fails (see the counterexample). -/
theorem fresh_region_allocate_succeeds (g size align : Nat) (ty : Ty)
    (halign : CHUNK_SIZE % align = 0)
    (hend : ((size + (CHUNK_SIZE - 1)) / CHUNK_SIZE) * CHUNK_SIZE / g < REGION_SIZE / g) :
    (ChunkAlloc.allocate (ChunkAlloc.new REGION_SIZE g) ty size align).1 = some (0, size) :=
  allocate_fresh_success REGION_SIZE g size align ty halign hend

/-- C8 amended witness: an 8 KiB buffer allocation in a fresh 64 MiB region
with granularity 1024. -/
theorem fresh_region_allocate_succeeds_witness :
    CHUNK_SIZE % 1 = 0 ∧
    ((8192 + (CHUNK_SIZE - 1)) / CHUNK_SIZE) * CHUNK_SIZE / 1024 < REGION_SIZE / 1024 ∧
    (ChunkAlloc.allocate (ChunkAlloc.new REGION_SIZE 1024) Ty.buffer 8192 1).1 = some (0, 8192) :=
  ⟨by decide, by decide,
    fresh_region_allocate_succeeds 1024 8192 1 Ty.buffer (by decide) (by decide)⟩

/-! ## Level baker (src/render/qmap.rs)

The baker's `f32` arithmetic is modelled on `ℚ`; all concrete inputs
evaluated below are small integers, at which `f32` arithmetic is exact. -/

structure Vec3 where
  x : ℚ
  y : ℚ
  z : ℚ
deriving DecidableEq, Repr, Inhabited

def Vec3.dot (a b : Vec3) : ℚ := a.x * b.x + a.y * b.y + a.z * b.z

def Vec3.add (a b : Vec3) : Vec3 := ⟨a.x + b.x, a.y + b.y, a.z + b.z⟩

/-- `bsp::Edge(Vector3, Vector3)`: the two absolute vertex positions. -/
structure Edge where
  v0 : Vec3
  v1 : Vec3
deriving DecidableEq, Repr, Inhabited

/-- `bsp::Texture` (the four mip `pictures` are not consulted by the
properties below and are omitted). -/
structure Texture where
  id : Int
  name : String
  width : Nat
  height : Nat
deriving DecidableEq, Repr, Inhabited

structure TextureInfo where
  vector_s : Vec3
  dist_s : ℚ
  vector_t : Vec3
  dist_t : ℚ
  texture : Nat
  animated : Bool
deriving DecidableEq, Repr, Inhabited

/-- `bsp::Face`; the two `Range<usize>`-valued fields are (start, end) pairs. -/
structure Face where
  plane : Nat
  front : Bool
  ledges : Nat × Nat
  texture_info : Nat
  type_light : Nat
  base_light : Nat
  light : Nat × Nat
  light_map : Int
deriving DecidableEq, Repr, Inhabited

/-- `bsp::Model` (the bounding box is not consulted by the properties below
and is omitted). -/
structure BModel where
  origin : Vec3
  faces : Nat × Nat
deriving DecidableEq, Repr, Inhabited

structure BspFile where
  light_maps : List Nat
  textures : List Texture
  texture_info : List TextureInfo
  edges : List Edge
  ledges : List Int
  faces : List Face
  models : List BModel
deriving Repr, Inhabited

def ATLAS_SIZE : Nat := 1024

/-! ### C4: the texture / lightmap sort order -/

structure TSortable where
  idx : Int
  width : Nat
  height : Nat
deriving DecidableEq, Repr, Inhabited

/-- The key compared by the `Ord` impl of `TSortable`:
`(self.width * self.height).cmp(&(other.width * other.height))`. -/
def TSortable.area (t : TSortable) : Nat := t.width * t.height

/-- `Vec::sort` with the `TSortable` `Ord`: a stable sort that orders by
`area` ascending.  Rust's stable sort and insertion sort compute the same
result for a total preorder. -/
def sortT (l : List TSortable) : List TSortable :=
  List.insertionSort (fun a b => a.area ≤ b.area) l

/-- The texture placement list of `QMap::new`: all textures with `id ≠ -1`,
then sorted; the baker places textures into the atlas in this order. -/
def tList (textures : List Texture) : List TSortable :=
  sortT ((textures.filter (fun v => v.id != -1)).map
    (fun v => { idx := v.id, width := v.width, height := v.height }))

/-! ### The sizing pass and the emission loop -/

/-- Slice `&b.ledges[face.ledges.clone()]`. -/
def faceLedges (b : BspFile) (face : Face) : List Int :=
  (b.ledges.drop face.ledges.1).take (face.ledges.2 - face.ledges.1)

/-- Slice `&b.faces[model.faces.clone()]`. -/
def modelFaces (b : BspFile) (m : BModel) : List Face :=
  (b.faces.drop m.faces.1).take (m.faces.2 - m.faces.1)

/-- The vertex a ledge starts from: a negative ledge traverses its edge
reversed and takes the second endpoint, otherwise the first. -/
def ledgeVert (b : BspFile) (ledge : Int) : Vec3 :=
  if ledge < 0 then (b.edges.getD (-ledge).toNat default).v1
  else (b.edges.getD ledge.toNat default).v0

/-- The other endpoint of a ledge's directed edge (`av` in the emission
loop: `e.1` for a nonnegative ledge, `e.0` otherwise). -/
def ledgeVertEnd (b : BspFile) (ledge : Int) : Vec3 :=
  if ledge < 0 then (b.edges.getD (-ledge).toNat default).v0
  else (b.edges.getD ledge.toNat default).v1

def projS (ti : TextureInfo) (v : Vec3) : ℚ := v.dot ti.vector_s + ti.dist_s

def projT (ti : TextureInfo) (v : Vec3) : ℚ := v.dot ti.vector_t + ti.dist_t

def ratFloor (q : ℚ) : ℚ := (⌊q⌋ : ℚ)

def ratCeil (q : ℚ) : ℚ := (⌈q⌉ : ℚ)

/-- Rust saturating `f32 as u32` cast (truncation toward zero; negative and
NaN inputs give 0). -/
def ratToU32 (q : ℚ) : Nat := if q ≤ 0 then 0 else min ⌊q⌋.toNat (2 ^ 32 - 1)

/-- Rust saturating `f32 as i16` cast (truncation toward zero). -/
def ratToI16 (q : ℚ) : Int :=
  max (-32768) (min 32767 (if q < 0 then -⌊-q⌋ else ⌊q⌋))

/-- Rust wrapping `i32 as u16` cast. -/
def intToU16 (x : Int) : Nat := (x % 65536).toNat

/-- Rust wrapping `u32 as i16` cast (low 16 bits, two's complement). -/
def natToI16 (n : Nat) : Int :=
  if n % 65536 < 32768 then (n % 65536 : Int) else (n % 65536 : Int) - 65536

/-- The skip shared by both baker passes: unused texture (`id == -1`) or the
literal `"trigger"` texture. -/
def faceSkipped (b : BspFile) (face : Face) : Bool :=
  let ti := b.texture_info.getD face.texture_info default
  let tex := b.textures.getD ti.texture default
  tex.id == -1 || tex.name == "trigger"

/-- The additional skip of the lightmap sizing pass: no lightmap offset or
stored lighting type `0xFF`.  (Note: this tests the face's stored
`type_light`, not the type forced later for `+`/`*` textures.) -/
def sizingSkipped (face : Face) : Bool :=
  face.light_map == -1 || face.type_light == 255

/-- The lightmap tile entry the sizing pass records for one face: the
projected bounding box in light-texel units (÷16, floor/ceil), plus one.
`f32::INFINITY`-seeded folds are modelled by `minimum?`/`maximum?`; for an
empty ledge range the `(∞ - ∞) + 1 = NaN` widths collapse to 0 under the
saturating `as u32` cast, matching the `none` branch here. -/
def sizingEntry (b : BspFile) (face : Face) : TSortable :=
  let ti := b.texture_info.getD face.texture_info default
  let vs := (faceLedges b face).map (fun l => projS ti (ledgeVert b l))
  let vt := (faceLedges b face).map (fun l => projT ti (ledgeVert b l))
  match vs.min?, vs.max?, vt.min?, vt.max? with
  | some mins, some maxs, some mint, some maxt =>
    let light_s := ratFloor (mins / 16)
    let light_t := ratFloor (mint / 16)
    let light_sm := ratCeil (maxs / 16)
    let light_tm := ratCeil (maxt / 16)
    { idx := face.light_map
    , width := ratToU32 ((light_sm - light_s) + 1)
    , height := ratToU32 ((light_tm - light_t) + 1) }
  | _, _, _, _ => { idx := face.light_map, width := 0, height := 0 }

/-- The `lights` list built by the lightmap sizing pass, before sorting. -/
def sizingList (b : BspFile) : List TSortable :=
  b.models.flatMap (fun m => (modelFaces b m).filterMap (fun face =>
    if faceSkipped b face || sizingSkipped face then none
    else some (sizingEntry b face)))

/-- The lightmap tile placement list: `lights.sort()` is applied to the
sizing-pass list, and the packing loop then places each tile via the padded
atlas packer in exactly this order. -/
def lightsSorted (b : BspFile) : List TSortable := sortT (sizingList b)

/-- The `(base_light, type_light)` pair used by the emission loop:
`+`/`*`-prefixed texture names force `(127, 0xFF)`. -/
def effectiveLights (tex : Texture) (face : Face) : Nat × Nat :=
  match tex.name.toList.head? with
  | some '+' => (127, 255)
  | some '*' => (127, 255)
  | _ => (face.base_light, face.type_light)

/-- Per-face context read by the emission loop from state built earlier in
`QMap::new`: the placed texture rectangles (indexed by texture id) and the
packed lightmap rectangles (the `lights` HashMap, keyed by lightmap offset;
modelled as a function since only lookups of present keys are evaluated). -/
structure BakeCtx where
  textures : List Rect
  lights : Int → Rect

/-- The polygon centroid of `QMap::new`: componentwise sum of both endpoints
of every referenced edge (`ledge.abs()`), divided by `ec = 2n`. -/
def centerOf (b : BspFile) (face : Face) : Vec3 :=
  let L := faceLedges b face
  let ec : ℚ := 2 * L.length
  let sum := L.foldl (fun acc l =>
    let e := b.edges.getD l.natAbs default
    Vec3.add acc (Vec3.add e.v0 e.v1)) ⟨0, 0, 0⟩
  ⟨sum.x / ec, sum.y / ec, sum.z / ec⟩

/-- The `t_offset_x, t_offset_y, light_s, light_t` quadruple computed before
the per-ledge loop (zero unless the face is lightmapped and its effective
type is not `0xFF`). -/
def lightBase (ctx : BakeCtx) (b : BspFile) (face : Face) (ti : TextureInfo)
    (type_light : Nat) : ℚ × ℚ × ℚ × ℚ :=
  if type_light ≠ 255 ∧ face.light_map ≠ -1 then
    let vs := (faceLedges b face).map (fun l => projS ti (ledgeVert b l))
    let vt := (faceLedges b face).map (fun l => projT ti (ledgeVert b l))
    let light_s := ratFloor ((vs.min?.getD 0) / 16)
    let light_t := ratFloor ((vt.min?.getD 0) / 16)
    let trect := ctx.lights face.light_map
    ((trect.x : ℚ), (trect.y : ℚ), light_s, light_t)
  else (0, 0, 0, 0)

structure Vertex where
  position : Vec3
  tex : Nat × Nat
  tex_info : Int × Int × Int × Int
  light_info : Int × Int
  light : Nat
  light_type : Nat
deriving DecidableEq, Repr, Inhabited

/-- One `buffer.push(Vertex { .. })` of the emission loop, at position
`pos` (an edge endpoint or the centroid). -/
def mkVert (trect : Rect) (tex : Texture) (ti : TextureInfo) (face : Face)
    (toX toY lightS lightT : ℚ) (light type_light : Nat) (origin pos : Vec3) : Vertex :=
  let a_s := pos.dot ti.vector_s + ti.dist_s
  let a_t := pos.dot ti.vector_t + ti.dist_t
  let atx := if face.light_map ≠ -1 then ratFloor (a_s / 16) - lightS else -1
  let aty := if face.light_map ≠ -1 then ratFloor (a_t / 16) - lightT else -1
  { position := Vec3.add origin pos
  , tex := (intToU16 trect.x, intToU16 trect.y)
  , tex_info := (ratToI16 a_s, ratToI16 a_t, natToI16 tex.width, natToI16 tex.height)
  , light_info := (ratToI16 (toX + atx), ratToI16 (toY + aty))
  , light := light
  , light_type := type_light }

/-- The vertices the baker emits for one (non-skipped) face: a 3-vertex fan
wedge `{edge-end, edge-start, centroid}` per ledge. -/
def emitFace (ctx : BakeCtx) (b : BspFile) (m : BModel) (face : Face) : List Vertex :=
  let ti := b.texture_info.getD face.texture_info default
  let tex := b.textures.getD ti.texture default
  let bl := effectiveLights tex face
  let light := if bl.1 = 255 then 0 else face.base_light
  let lp := lightBase ctx b face ti bl.2
  let center := centerOf b face
  let trect := ctx.textures.getD tex.id.toNat default
  (faceLedges b face).flatMap (fun ledge =>
    [mkVert trect tex ti face lp.1 lp.2.1 lp.2.2.1 lp.2.2.2 light bl.2 m.origin
       (ledgeVertEnd b ledge),
     mkVert trect tex ti face lp.1 lp.2.1 lp.2.2.1 lp.2.2.2 light bl.2 m.origin
       (ledgeVert b ledge),
     mkVert trect tex ti face lp.1 lp.2.1 lp.2.2.1 lp.2.2.2 light bl.2 m.origin center])

instance : IsTotal TSortable (fun a b => a.area ≤ b.area) := ⟨fun x y => Nat.le_total x.area y.area⟩

instance : IsTrans TSortable (fun a b => a.area ≤ b.area) := ⟨fun _ _ _ => Nat.le_trans⟩

/-- C4 counterexample: the claim says textures are placed in descending order
of `width*height`, but `TSortable`'s `Ord` compares areas ascending; two used
textures of areas 1 and 4 are placed smallest-first, so the placement areas
are not non-increasing. -/
theorem texture_sort_descending_counterexample :
    (tList [{ id := 0, name := "a", width := 1, height := 1 },
            { id := 1, name := "b", width := 2, height := 2 }]).map TSortable.area = [1, 4] ∧
    ¬ ([1, 4] : List Nat).Pairwise (fun a b => b ≤ a) := by
  constructor
  · decide
  · decide

/-- C4 amended: the baker sorts ascending by `width*height` (smallest first):
`t_list` is a permutation of the valid-id textures ordered by nondecreasing
area, and likewise the lightmap tile list `lights` after its sort is a
permutation of the sizing-pass entries ordered by nondecreasing area; both
placement loops run in exactly these orders. -/
theorem texture_sort_ascending (textures : List Texture) (b : BspFile) :
    ((tList textures).map TSortable.area).Pairwise (fun a b => a ≤ b) ∧
    (tList textures).Perm ((textures.filter (fun v => v.id != -1)).map
      (fun v => { idx := v.id, width := v.width, height := v.height })) ∧
    ((lightsSorted b).map TSortable.area).Pairwise (fun a b => a ≤ b) ∧
    (lightsSorted b).Perm (sizingList b) := by
  refine ⟨?_, ?_, ?_, ?_⟩
  · rw [List.pairwise_map]
    exact List.sorted_insertionSort (fun a b : TSortable => a.area ≤ b.area) _
  · exact List.perm_insertionSort (fun a b : TSortable => a.area ≤ b.area) _
  · rw [List.pairwise_map]
    exact List.sorted_insertionSort (fun a b : TSortable => a.area ≤ b.area) _
  · exact List.perm_insertionSort (fun a b : TSortable => a.area ≤ b.area) _

def cexTex : Texture := { id := 0, name := "+button", width := 16, height := 16 }

def cexTi : TextureInfo :=
  { vector_s := ⟨1,0,0⟩, dist_s := 0, vector_t := ⟨0,1,0⟩, dist_t := 0
  , texture := 0, animated := false }

def cexFace : Face :=
  { plane := 0, front := true, ledges := (0, 4), texture_info := 0, type_light := 0
  , base_light := 0, light := (0,0), light_map := 0 }

def cexModel : BModel := { origin := ⟨0,0,0⟩, faces := (0, 1) }

def cexBsp : BspFile :=
  { light_maps := [], textures := [cexTex], texture_info := [cexTi]
  , edges := [default, ⟨⟨0,0,0⟩,⟨32,0,0⟩⟩, ⟨⟨32,0,0⟩,⟨32,32,0⟩⟩, ⟨⟨32,32,0⟩,⟨0,32,0⟩⟩,
      ⟨⟨0,32,0⟩,⟨0,0,0⟩⟩]
  , ledges := [1,2,3,4], faces := [cexFace], models := [cexModel] }

def cexCtx : BakeCtx := { textures := [⟨0,0,16,16⟩], lights := fun _ => ⟨0,0,0,0⟩ }

theorem fullbright_claim_counterexample :
    (effectiveLights cexTex cexFace).2 = 255 ∧ cexFace.type_light ≠ 255 ∧
    sizingList cexBsp = [sizingEntry cexBsp cexFace] ∧
    ((emitFace cexCtx cexBsp cexModel cexFace).map Vertex.light_info).getD 0 (0, 0) = (2, 0) ∧
    ((2 : Int), (0 : Int)) ≠ ((-1 : Int), (-1 : Int)) := by
  refine ⟨by decide, by decide, by rfl, ?_, by decide⟩
  rw [show ((emitFace cexCtx cexBsp cexModel cexFace).map Vertex.light_info).getD 0 (0, 0)
      = (mkVert ⟨0,0,16,16⟩ cexTex cexTi cexFace 0 0 0 0 0 255 ⟨0,0,0⟩
          (ledgeVertEnd cexBsp 1)).light_info from rfl]
  rw [show ledgeVertEnd cexBsp 1 = ⟨32, 0, 0⟩ from rfl]
  simp only [mkVert, cexTex, cexTi, cexFace, Vec3.dot, ratFloor, ratToI16]
  norm_num

theorem fullbright_amended (ctx : BakeCtx) (b : BspFile) (m : BModel) :
    (∀ face : Face, face.type_light = 255 ∨ face.light_map = -1 →
      (if faceSkipped b face || sizingSkipped face then none
       else some (sizingEntry b face)) = none) ∧
    (∀ face : Face, face.light_map = -1 →
      ∀ v ∈ emitFace ctx b m face, v.light_info = (-1, -1)) := by
  constructor
  · intro face hface
    have hss : sizingSkipped face = true := by
      rw [sizingSkipped, Bool.or_eq_true, beq_iff_eq, beq_iff_eq]
      rcases hface with h | h
      · exact Or.inr h
      · exact Or.inl h
    simp [hss]
  · intro face hlm v hv
    simp only [emitFace, List.mem_flatMap, List.mem_cons, List.not_mem_nil, or_false] at hv
    obtain ⟨ledge, _, hv⟩ := hv
    have hlb : lightBase ctx b face (b.texture_info.getD face.texture_info default)
        (effectiveLights (b.textures.getD
          (b.texture_info.getD face.texture_info default).texture default) face).2
        = (0, 0, 0, 0) := by
      rw [lightBase, if_neg]
      simp [hlm]
    rw [hlb] at hv
    have hone : ∀ pos : Vec3, (mkVert
        (ctx.textures.getD (b.textures.getD
          (b.texture_info.getD face.texture_info default).texture default).id.toNat default)
        (b.textures.getD (b.texture_info.getD face.texture_info default).texture default)
        (b.texture_info.getD face.texture_info default) face 0 0 0 0
        (if (effectiveLights (b.textures.getD
          (b.texture_info.getD face.texture_info default).texture default) face).1 = 255
         then 0 else face.base_light)
        (effectiveLights (b.textures.getD
          (b.texture_info.getD face.texture_info default).texture default) face).2
        m.origin pos).light_info = (-1, -1) := by
      intro pos
      rw [mkVert]
      simp only [hlm, if_neg (by simp : ¬ (-1 : Int) ≠ -1)]
      norm_num [ratToI16]
    rcases hv with rfl | rfl | rfl
    · exact hone _
    · exact hone _
    · exact hone _

/-- `max(min(v, size as i32 - 1), 0)` — the edge clamp of the lightmap copy. -/
def clampIdx (v : Int) (size : Nat) : Int := max (min v ((size : Int) - 1)) 0

/-- The integer loop values `-1, 0, ..., n - 2` of a Rust `for v in -1..n-1`
range (used with `n = size + 2`). -/
def loopRange (n : Nat) : List Int := (List.range n).map (fun i => Int.ofNat i - 1)

/-- The loop-variable pairs of the nested copy loops, in iteration order
(`y` outer, `x` inner). -/
def copyCells (w h : Nat) : List (Int × Int) :=
  (loopRange (h + 2)).flatMap (fun y => (loopRange (w + 2)).map (fun x => (x, y)))

/-- The lightmap tile copy of `QMap::new`: for every cell, write the source
byte `light_maps[base + clamped_x + clamped_y * w]` into the atlas buffer at
linear index `(rect.x + x) + (rect.y + y) * A`.  The byte buffer is a
function from linear index to byte; the hypotheses of the theorems below
keep every written index in range (out of range, the Rust `Vec` indexing
panics). -/
def copyTile (A : Nat) (lm : List Nat) (base w h : Nat) (ox oy : Int)
    (dest : Nat → Nat) : Nat → Nat :=
  (copyCells w h).foldl (fun d cell =>
    let idx := (ox + cell.1).toNat + (oy + cell.2).toNat * A
    let ys := clampIdx cell.2 h
    let xs := clampIdx cell.1 w
    let sidx := xs.toNat + ys.toNat * w
    Function.update d idx (lm.getD (base + sidx) 0)) dest

theorem foldl_update_ne {α : Type} (g : α → Nat) (val : α → Nat) :
    ∀ (cells : List α) (d : Nat → Nat) (p : Nat), (∀ x ∈ cells, g x ≠ p) →
    (cells.foldl (fun d c => Function.update d (g c) (val c)) d) p = d p := by
  intro cells
  induction cells with
  | nil => intro d p _; rfl
  | cons c rest ih =>
    intro d p hne
    simp only [List.foldl_cons]
    rw [ih _ p (fun x hx => hne x (List.mem_cons_of_mem c hx))]
    exact Function.update_noteq (fun he => hne c (List.mem_cons_self c rest) he.symm) _ d

theorem foldl_update_getval {α : Type} (g : α → Nat) (val : α → Nat) :
    ∀ (cells : List α) (d : Nat → Nat) (a : α), a ∈ cells →
    (∀ x ∈ cells, ∀ y ∈ cells, g x = g y → x = y) →
    (cells.foldl (fun d c => Function.update d (g c) (val c)) d) (g a) = val a := by
  intro cells
  induction cells with
  | nil => intro d a ha; cases ha
  | cons c rest ih =>
    intro d a ha hinj
    simp only [List.foldl_cons]
    by_cases hrest : a ∈ rest
    · exact ih _ a hrest (fun x hx y hy =>
        hinj x (List.mem_cons_of_mem c hx) y (List.mem_cons_of_mem c hy))
    · have hac : a = c := by
        rcases List.mem_cons.1 ha with hh | hh
        · exact hh
        · exact absurd hh hrest
      subst hac
      rw [foldl_update_ne g val rest _ (g a) (fun x hx hgx => hrest (by
        have := hinj x (List.mem_cons_of_mem a hx) a (List.mem_cons_self a rest) hgx
        exact this ▸ hx))]
      simp

theorem base_repr_unique (A u1 v1 u2 v2 : Nat) (h1 : u1 < A) (h2 : u2 < A)
    (h : u1 + v1 * A = u2 + v2 * A) : u1 = u2 ∧ v1 = v2 := by
  have hA : 0 < A := by omega
  have hu : u1 = u2 := by
    have hmod := congrArg (fun t => t % A) h
    simpa [Nat.add_mul_mod_self_right, Nat.mod_eq_of_lt h1, Nat.mod_eq_of_lt h2] using hmod
  refine ⟨hu, Nat.eq_of_mul_eq_mul_right hA (by omega)⟩

theorem mem_loopRange (n : Nat) (v : Int) :
    v ∈ loopRange n ↔ -1 ≤ v ∧ v < (n : Int) - 1 := by
  rw [loopRange, List.mem_map]
  simp only [Int.ofNat_eq_coe]
  constructor
  · rintro ⟨i, hi, rfl⟩
    rw [List.mem_range] at hi
    omega
  · rintro ⟨h1, h2⟩
    exact ⟨(v + 1).toNat, List.mem_range.2 (by omega), by omega⟩

theorem mem_copyCells_iff (w h : Nat) (c : Int × Int) :
    c ∈ copyCells w h ↔ -1 ≤ c.1 ∧ c.1 ≤ w ∧ -1 ≤ c.2 ∧ c.2 ≤ h := by
  rw [copyCells, List.mem_flatMap]
  constructor
  · rintro ⟨y0, hy0, hc⟩
    rw [mem_loopRange] at hy0
    rw [List.mem_map] at hc
    obtain ⟨x0, hx0, rfl⟩ := hc
    rw [mem_loopRange] at hx0
    exact ⟨hx0.1, by omega, hy0.1, by omega⟩
  · rintro ⟨h1, h2, h3, h4⟩
    refine ⟨c.2, (mem_loopRange _ _).2 ⟨h3, by omega⟩,
      List.mem_map.2 ⟨c.1, (mem_loopRange _ _).2 ⟨h1, by omega⟩, rfl⟩⟩

/-- C6: the lightmap tile copy writes the one-texel border with edge-clamped
source coordinates: for every `x, y` in `[-1, size]`, the atlas byte at
`(ox + x, oy + y)` equals the source byte at the coordinates clamped into
`[0, size-1]`; in particular `(ox-1, oy-1)` receives source `(0,0)` and
`(ox+w, oy+h)` receives source `(w-1, h-1)`. -/
theorem lightmap_copy_edge_clamped (A : Nat) (lm : List Nat) (base w h : Nat) (ox oy : Int)
    (dest : Nat → Nat) (hox : 1 ≤ ox) (hoy : 1 ≤ oy)
    (hxb : ox + w + 1 ≤ A) (hyb : oy + h + 1 ≤ A)
    (x y : Int) (hx1 : -1 ≤ x) (hx2 : x ≤ w) (hy1 : -1 ≤ y) (hy2 : y ≤ h) :
    copyTile A lm base w h ox oy dest ((ox + x).toNat + (oy + y).toNat * A)
      = lm.getD (base + ((clampIdx x w).toNat + (clampIdx y h).toNat * w)) 0 := by
  have hinj : ∀ c1 ∈ copyCells w h, ∀ c2 ∈ copyCells w h,
      (ox + c1.1).toNat + (oy + c1.2).toNat * A = (ox + c2.1).toNat + (oy + c2.2).toNat * A →
      c1 = c2 := by
    intro c1 hc1 c2 hc2 heq
    obtain ⟨hb1, hb2, hb3, hb4⟩ := (mem_copyCells_iff w h c1).1 hc1
    obtain ⟨hb5, hb6, hb7, hb8⟩ := (mem_copyCells_iff w h c2).1 hc2
    have h1 : (ox + c1.1).toNat < A := by omega
    have h2 : (ox + c2.1).toNat < A := by omega
    obtain ⟨hu, hv⟩ := base_repr_unique A _ _ _ _ h1 h2 heq
    have : c1.1 = c2.1 := by omega
    have : c1.2 = c2.2 := by omega
    exact Prod.ext (by omega) (by omega)
  exact foldl_update_getval
    (fun c => (ox + c.1).toNat + (oy + c.2).toNat * A)
    (fun c => lm.getD (base + ((clampIdx c.1 w).toNat + (clampIdx c.2 h).toNat * w)) 0)
    (copyCells w h) dest (x, y) ((mem_copyCells_iff w h (x, y)).2 ⟨hx1, hx2, hy1, hy2⟩) hinj

/-- The arithmetic mean of the `2n` edge endpoints of a face's ledge range,
each referenced edge contributing both of its endpoints — the centroid as the
claim states it. -/
def meanOfEndpoints (b : BspFile) (face : Face) : Vec3 :=
  let L := faceLedges b face
  let n : ℚ := L.length
  { x := ((L.map (fun l => (b.edges.getD l.natAbs default).v0.x
            + (b.edges.getD l.natAbs default).v1.x)).sum) / (2 * n)
  , y := ((L.map (fun l => (b.edges.getD l.natAbs default).v0.y
            + (b.edges.getD l.natAbs default).v1.y)).sum) / (2 * n)
  , z := ((L.map (fun l => (b.edges.getD l.natAbs default).v0.z
            + (b.edges.getD l.natAbs default).v1.z)).sum) / (2 * n) }

theorem foldl_vec3_add (f : Int → Vec3) : ∀ (L : List Int) (z : Vec3),
    (L.foldl (fun acc l => Vec3.add acc (f l)) z)
      = ⟨z.x + (L.map (fun l => (f l).x)).sum, z.y + (L.map (fun l => (f l).y)).sum,
         z.z + (L.map (fun l => (f l).z)).sum⟩ := by
  intro L
  induction L with
  | nil => intro z; simp
  | cons a rest ih =>
    intro z
    simp only [List.foldl_cons, List.map_cons, List.sum_cons, ih]
    simp only [Vec3.add, Vec3.mk.injEq]
    refine ⟨by ring, by ring, by ring⟩

theorem centerOf_eq_mean (b : BspFile) (face : Face) :
    centerOf b face = meanOfEndpoints b face := by
  rw [centerOf, meanOfEndpoints]
  rw [foldl_vec3_add (fun l => Vec3.add (b.edges.getD l.natAbs default).v0
    (b.edges.getD l.natAbs default).v1)]
  simp only [Vec3.add, Vec3.mk.injEq]
  refine ⟨?_, ?_, ?_⟩ <;>
    · rw [zero_add]

theorem flatMap_three_length {α β : Type} (f : α → List β) (hf : ∀ a, (f a).length = 3) :
    ∀ L : List α, (L.flatMap f).length = 3 * L.length := by
  intro L
  induction L with
  | nil => simp
  | cons a rest ih => simp [List.flatMap_cons, ih, hf a]; ring

theorem flatMap_three_getElem {α β : Type} (f : α → List β) (hf : ∀ a, (f a).length = 3) :
    ∀ (L : List α) (i k : Nat), (hi : i < L.length) → k < 3 →
    (L.flatMap f)[3 * i + k]? = (f L[i])[k]? := by
  intro L
  induction L with
  | nil => intro i k hi _; cases hi
  | cons a rest ih =>
    intro i k hi hk
    rw [List.flatMap_cons]
    cases i with
    | zero =>
      simp only [Nat.mul_zero, Nat.zero_add]
      rw [List.getElem?_append_left (by rw [hf a]; omega)]
      simp
    | succ i =>
      rw [List.getElem?_append_right (by rw [hf a]; omega)]
      rw [hf a]
      have : 3 * (i + 1) + k - 3 = 3 * i + k := by ring_nf; omega
      rw [this]
      have := ih i k (by simpa using hi) hk
      simpa using this

theorem fan_wedges_spec (b : BspFile) (m : BModel) (face : Face) (E : List Vertex)
    (g : Vec3 → Vertex) (hg : ∀ pos, (g pos).position = Vec3.add m.origin pos)
    (hemit : E = (faceLedges b face).flatMap (fun ledge =>
      [g (ledgeVertEnd b ledge), g (ledgeVert b ledge), g (centerOf b face)])) :
    E.length = 3 * (faceLedges b face).length ∧
    ∀ i, i < (faceLedges b face).length →
      E[3 * i]?.map Vertex.position
          = some (Vec3.add m.origin (ledgeVertEnd b ((faceLedges b face).getD i 0))) ∧
      E[3 * i + 1]?.map Vertex.position
          = some (Vec3.add m.origin (ledgeVert b ((faceLedges b face).getD i 0))) ∧
      E[3 * i + 2]?.map Vertex.position = some (Vec3.add m.origin (centerOf b face)) := by
  subst hemit
  have hf : ∀ a : Int, ([g (ledgeVertEnd b a), g (ledgeVert b a),
      g (centerOf b face)]).length = 3 := fun a => rfl
  refine ⟨flatMap_three_length _ hf _, ?_⟩
  intro i hi
  have hgetD : (faceLedges b face).getD i 0 = (faceLedges b face)[i] := by
    rw [List.getD_eq_getElem?_getD, List.getElem?_eq_getElem hi]
    rfl
  have h0 := flatMap_three_getElem _ hf (faceLedges b face) i 0 hi (by omega)
  have h1 := flatMap_three_getElem _ hf (faceLedges b face) i 1 hi (by omega)
  have h2 := flatMap_three_getElem _ hf (faceLedges b face) i 2 hi (by omega)
  rw [Nat.add_zero] at h0
  refine ⟨?_, ?_, ?_⟩
  · rw [h0, hgetD]
    simp [hg]
  · rw [h1, hgetD]
    simp [hg]
  · rw [h2]
    simp [hg]

/-- C7: for every face, the baker emits exactly `3n` vertices for its `n`
ledges, grouped as `n` wedges — the two endpoints of the i-th directed edge
followed by the centroid vertex — so the non-centroid vertices trace the
face's directed edges exactly once in ledge order; and the centroid is the
arithmetic mean of the `2n` edge endpoints (each referenced edge contributing
both endpoints). -/
theorem fan_emission_structure (ctx : BakeCtx) (b : BspFile) (m : BModel) (face : Face) :
    (emitFace ctx b m face).length = 3 * (faceLedges b face).length ∧
    centerOf b face = meanOfEndpoints b face ∧
    ∀ i, i < (faceLedges b face).length →
      (emitFace ctx b m face)[3 * i]?.map Vertex.position
          = some (Vec3.add m.origin (ledgeVertEnd b ((faceLedges b face).getD i 0))) ∧
      (emitFace ctx b m face)[3 * i + 1]?.map Vertex.position
          = some (Vec3.add m.origin (ledgeVert b ((faceLedges b face).getD i 0))) ∧
      (emitFace ctx b m face)[3 * i + 2]?.map Vertex.position
          = some (Vec3.add m.origin (centerOf b face)) := by
  have key := fan_wedges_spec b m face (emitFace ctx b m face)
    (mkVert _ _ _ face _ _ _ _ _ _ m.origin) (fun pos => rfl) rfl
  exact ⟨key.1, centerOf_eq_mean b face, key.2⟩

/-! ### Witnesses for the baker theorems -/

def wFaceA : Face := { cexFace with type_light := 255 }

def wFaceB : Face := { cexFace with light_map := -1 }

/-- C5 amended witness: a face with stored type `0xFF` produces no sizing
entry, and a face without a lightmap emits only `(-1,-1)` light UVs. -/
theorem fullbright_amended_witness :
    (if faceSkipped cexBsp wFaceA || sizingSkipped wFaceA then none
     else some (sizingEntry cexBsp wFaceA)) = none ∧
    ∀ v ∈ emitFace cexCtx cexBsp cexModel wFaceB, v.light_info = (-1, -1) :=
  ⟨(fullbright_amended cexCtx cexBsp cexModel).1 wFaceA (Or.inl rfl),
   (fullbright_amended cexCtx cexBsp cexModel).2 wFaceB rfl⟩

/-- C6 witness: a 2×2 tile at origin (1,1) of an 8-wide atlas; the border
cell (-1,-1) receives source byte (0,0). -/
theorem lightmap_copy_edge_clamped_witness :
    (1 : Int) ≤ 1 ∧ (1 : Int) + (2 : Nat) + 1 ≤ (8 : Nat) ∧
    (-1 : Int) ≤ -1 ∧ (-1 : Int) ≤ (2 : Nat) ∧
    copyTile 8 [10, 20, 30, 40] 0 2 2 1 1 (fun _ => 0)
        ((1 + (-1 : Int)).toNat + (1 + (-1 : Int)).toNat * 8)
      = ([10, 20, 30, 40] : List Nat).getD
          (0 + ((clampIdx (-1) 2).toNat + (clampIdx (-1) 2).toNat * 2)) 0 :=
  ⟨by decide, by decide, by decide, by decide,
   lightmap_copy_edge_clamped 8 [10, 20, 30, 40] 0 2 2 1 1 (fun _ => 0)
     (by decide) (by decide) (by decide) (by decide) (-1) (-1)
     (by decide) (by decide) (by decide) (by decide)⟩

/-- C7 witness: the square test face emits 12 vertices for its 4 ledges, and
wedge 0 is (edge end, edge start, centroid). -/
theorem fan_emission_structure_witness :
    (emitFace cexCtx cexBsp cexModel cexFace).length
      = 3 * (faceLedges cexBsp cexFace).length ∧
    ((emitFace cexCtx cexBsp cexModel cexFace)[3 * 0]?.map Vertex.position
        = some (Vec3.add cexModel.origin
            (ledgeVertEnd cexBsp ((faceLedges cexBsp cexFace).getD 0 0))) ∧
      (emitFace cexCtx cexBsp cexModel cexFace)[3 * 0 + 1]?.map Vertex.position
        = some (Vec3.add cexModel.origin
            (ledgeVert cexBsp ((faceLedges cexBsp cexFace).getD 0 0))) ∧
      (emitFace cexCtx cexBsp cexModel cexFace)[3 * 0 + 2]?.map Vertex.position
        = some (Vec3.add cexModel.origin (centerOf cexBsp cexFace))) :=
  ⟨(fan_emission_structure cexCtx cexBsp cexModel cexFace).1,
   (fan_emission_structure cexCtx cexBsp cexModel cexFace).2.2 0 (by decide)⟩
